import Mathlib

/-!
Verification of the aituber job pipeline against its specification.

The Go sources are shallowly embedded: pure computations become Lean
functions, mutable structs become explicit records that operations map to
new records, wall-clock time is an explicit `Nat` parameter, `float64`
duration arithmetic is carried out over `ℚ`, and calls to `rand.Intn`
are modelled by an explicit choice parameter reduced modulo the relevant
length.  Fallible Go functions returning `(T, error)` become
`Option`/`Except` valued functions.
-/

namespace Aituber

/-! ## APIKeyPool (utils/apikey_pool.go)

`APIKeyPool` holds a fixed key list plus per-key usage counts, last-used
times and blacklist-until timestamps.  Go maps with zero-value defaults are
embedded as total functions (`usageCounts`, default 0) and partial maps as
`Option`-valued functions (`blacklist`, `none` = absent entry). -/

structure APIKeyPool where
  keys : List String
  usageCounts : String → Nat
  lastUsedTime : String → Option Nat
  blacklist : String → Option Nat

/-- Go `cleanBlacklist`: removes blacklist entries whose expiry is strictly in
the past (`now.After(expireTime)`). -/
def APIKeyPool.cleanBlacklist (p : APIKeyPool) (now : Nat) : APIKeyPool :=
  { p with
    blacklist := fun k =>
      match p.blacklist k with
      | some expireTime => if now > expireTime then none else some expireTime
      | none => none }

/-- Go `getAvailableKeys`: keys without a still-active blacklist entry
(`now.Before(expireTime)` means the key is skipped). -/
def APIKeyPool.getAvailableKeys (p : APIKeyPool) (now : Nat) : List String :=
  p.keys.filter fun k =>
    match p.blacklist k with
    | some expireTime => if now < expireTime then false else true
    | none => true

/-- The `minUsage` scan of `GetRandomKey`: minimum usage count over the
available keys (the Go code uses a `-1` sentinel; on a non-empty list the
result is the same fold). -/
def APIKeyPool.minUsageOf (p : APIKeyPool) (available : List String) : Nat :=
  match available with
  | [] => 0
  | k :: rest => rest.foldl (fun m key => min m (p.usageCounts key)) (p.usageCounts k)

/-- The candidate selection of `GetRandomKey`: available keys whose usage is
at most `minUsage + len(available)/2`. -/
def APIKeyPool.candidatesOf (p : APIKeyPool) (available : List String) : List String :=
  let threshold := p.minUsageOf available + available.length / 2
  available.filter fun k => p.usageCounts k ≤ threshold

/-- The selection step of `GetRandomKey` on the cleaned pool: the candidate
set (falling back to the full available set when it would be empty) indexed
by the random draw, which `rand.Intn(len(candidates))` makes a uniformly
random index below `candidates.length`; it is modelled by
`choice % candidates.length`. -/
def APIKeyPool.selectKey (p1 : APIKeyPool) (now choice : Nat) : String :=
  let available := p1.getAvailableKeys now
  let candidates0 := p1.candidatesOf available
  let candidates := if candidates0.isEmpty then available else candidates0
  candidates.getD (choice % candidates.length) ""

/-- Go `GetRandomKey`: clean expired blacklist entries, fail if no key is
available, otherwise select a key among the least-used candidates,
increment its usage count and record its last-used time. -/
def APIKeyPool.getRandomKey (p : APIKeyPool) (now choice : Nat) :
    Option (String × APIKeyPool) :=
  let p1 := p.cleanBlacklist now
  let available := p1.getAvailableKeys now
  if available.isEmpty then none
  else
    let selectedKey := p1.selectKey now choice
    some (selectedKey,
      { p1 with
        usageCounts := fun k =>
          if k = selectedKey then p1.usageCounts k + 1 else p1.usageCounts k
        lastUsedTime := fun k =>
          if k = selectedKey then some now else p1.lastUsedTime k })

/-- The key returned by `GetRandomKey` (first component). -/
def APIKeyPool.acquiredKey (p : APIKeyPool) (now choice : Nat) : Option String :=
  (p.getRandomKey now choice).map Prod.fst

/-- The pool state after `GetRandomKey` succeeds. -/
def APIKeyPool.poolAfter (p : APIKeyPool) (now choice : Nat) : Option APIKeyPool :=
  (p.getRandomKey now choice).map Prod.snd

/-- The usage count of `key` after a successful `GetRandomKey`. -/
def APIKeyPool.usageAfter (p : APIKeyPool) (now choice : Nat) (key : String) : Option Nat :=
  (p.poolAfter now choice).map fun q => q.usageCounts key

/-- The last-used time of `key` after a successful `GetRandomKey`. -/
def APIKeyPool.lastUsedAfter (p : APIKeyPool) (now choice : Nat) (key : String) :
    Option (Option Nat) :=
  (p.poolAfter now choice).map fun q => q.lastUsedTime key

/-- Go `MarkFailed`: blacklist the key until `now + retryAfter`, overwriting any
previous entry. -/
def APIKeyPool.markFailed (p : APIKeyPool) (key : String) (now retryAfter : Nat) :
    APIKeyPool :=
  { p with
    blacklist := fun k => if k = key then some (now + retryAfter) else p.blacklist k }

/-- Go `MarkSuccess`: no state change. -/
def APIKeyPool.markSuccess (p : APIKeyPool) (_key : String) : APIKeyPool := p

/-! ## TextProcessor (services/text_processor.go)

Scripts are embedded as `List Char`; `strings.TrimSpace`, `strings.Fields`
and the rune loop of `splitIntoSentences` are modelled directly.  Go's
`len` (bytes) is modelled as character count, which agrees with the source
on single-byte text and preserves the additivity the splitting logic relies
on. -/

/-- Go `isSentenceEnding`: the sentence-terminator runes. -/
def isSentenceEnding (c : Char) : Bool :=
  c = '.' || c = '!' || c = '?' || c = '。' || c = '！' || c = '？'

/-- Go `strings.TrimSpace`: drop leading and trailing whitespace. -/
def trimSpace (l : List Char) : List Char :=
  ((l.dropWhile Char.isWhitespace).reverse.dropWhile Char.isWhitespace).reverse

/-- Helper for `strings.Fields`: split on whitespace runs, dropping empty
fragments; `current` is the word being accumulated. -/
def fieldsAux : List Char → List Char → List (List Char)
  | current, [] => if current = [] then [] else [current]
  | current, c :: rest =>
    if c.isWhitespace then
      if current = [] then fieldsAux [] rest else current :: fieldsAux [] rest
    else fieldsAux (current ++ [c]) rest

/-- Go `strings.Fields`: the whitespace-delimited words of a string. -/
def fields (l : List Char) : List (List Char) := fieldsAux [] l

/-- Does the next rune exist and is it whitespace (the `i+1 < len(runes) &&
unicode.IsSpace(runes[i+1])` lookahead)? -/
def headIsSpace : List Char → Bool
  | [] => false
  | c :: _ => c.isWhitespace

/-- The rune loop of `splitIntoSentences`: accumulate `current`, flush the
trimmed sentence when a terminator is followed by whitespace, and keep a
trailing unterminated fragment. -/
def splitIntoSentencesAux : List Char → List Char → List (List Char)
  | current, [] => if trimSpace current = [] then [] else [trimSpace current]
  | current, c :: rest =>
    let current' := current ++ [c]
    if isSentenceEnding c && headIsSpace rest then
      (if trimSpace current' = [] then splitIntoSentencesAux [] rest
       else trimSpace current' :: splitIntoSentencesAux [] rest)
    else splitIntoSentencesAux current' rest

/-- Go `splitIntoSentences`. -/
def splitIntoSentences (text : List Char) : List (List Char) :=
  splitIntoSentencesAux [] text

/-- The word loop of `splitLongText`: pack whitespace-free words into chunks
of at most `limit` characters (a single over-long word becomes its own
chunk). -/
def splitWordsLoop (limit : Nat) : List Char → List (List Char) → List (List Char)
  | current, [] => if current = [] then [] else [current]
  | current, w :: rest =>
    if current.length + w.length + 1 > limit then
      (if current = [] then splitWordsLoop limit w rest
       else current :: splitWordsLoop limit w rest)
    else
      splitWordsLoop limit (if current = [] then w else current ++ ' ' :: w) rest

/-- Go `splitLongText`: split an over-long sentence at word boundaries. -/
def splitLongText (limit : Nat) (text : List Char) : List (List Char) :=
  splitWordsLoop limit [] (fields text)

/-- The sentence-packing loop of `SplitForAudio`: greedily pack whole
sentences while the running length (plus a joining space) stays within the
limit; an over-long sentence is delegated to `splitLongText`. -/
def packSentences (limit : Nat) : List Char → List (List Char) → List (List Char)
  | current, [] => if current = [] then [] else [current]
  | current, s :: rest =>
    let potentialLen := current.length + s.length + (if current = [] then 0 else 1)
    if potentialLen ≤ limit then
      packSentences limit (if current = [] then s else current ++ ' ' :: s) rest
    else
      (if current = [] then [] else [current]) ++
        (if s.length > limit then splitLongText limit s ++ packSentences limit [] rest
         else packSentences limit s rest)

/-- Go `SplitForAudio`: trim, return no chunk on empty input, one chunk when the
whole (trimmed) text fits, otherwise pack sentences. -/
def splitForAudio (audioChunkSize : Nat) (text : List Char) : List (List Char) :=
  let text := trimSpace text
  if text = [] then []
  else if text.length ≤ audioChunkSize then [text]
  else packSentences audioChunkSize [] (splitIntoSentences text)

/-! ### Key-pool lemmas -/

lemma getD_mod_mem {l : List String} (h : l ≠ []) (n : Nat) :
    l.getD (n % l.length) "" ∈ l := by
  have hlen : 0 < l.length := List.length_pos.mpr h
  have hn : n % l.length < l.length := Nat.mod_lt _ hlen
  rw [List.getD_eq_getElem _ _ hn]
  exact List.getElem_mem hn

lemma candidatesOf_subset (p : APIKeyPool) (available : List String) :
    p.candidatesOf available ⊆ available := by
  intro k hk
  exact (List.mem_filter.mp hk).1

lemma foldl_min_le_init (f : String → Nat) :
    ∀ (l : List String) (a : Nat), l.foldl (fun m k => min m (f k)) a ≤ a := by
  intro l
  induction l with
  | nil => intro a; exact le_rfl
  | cons h t ih =>
    intro a
    exact le_trans (ih (min a (f h))) (min_le_left _ _)

lemma foldl_min_le_mem (f : String → Nat) :
    ∀ (l : List String) (a : Nat) (k : String), k ∈ l →
      l.foldl (fun m key => min m (f key)) a ≤ f k := by
  intro l
  induction l with
  | nil => intro a k hk; cases hk
  | cons h t ih =>
    intro a k hk
    rcases List.mem_cons.mp hk with hk | hk
    · subst hk
      exact le_trans (foldl_min_le_init f t (min a (f k))) (min_le_right _ _)
    · exact ih (min a (f h)) k hk

lemma foldl_min_attained (f : String → Nat) :
    ∀ (l : List String) (a : Nat),
      l.foldl (fun m k => min m (f k)) a = a ∨
        ∃ k ∈ l, l.foldl (fun m key => min m (f key)) a = f k := by
  intro l
  induction l with
  | nil => intro a; exact Or.inl rfl
  | cons h t ih =>
    intro a
    rcases ih (min a (f h)) with heq | ⟨k, hk, hke⟩
    · rcases le_total a (f h) with hle | hle
      · left
        simpa [min_eq_left hle] using heq
      · right
        refine ⟨h, List.mem_cons_self _ _, ?_⟩
        simpa [min_eq_right hle] using heq
    · exact Or.inr ⟨k, List.mem_cons_of_mem _ hk, hke⟩

lemma minUsageOf_le {p : APIKeyPool} {available : List String} {j : String}
    (hj : j ∈ available) : p.minUsageOf available ≤ p.usageCounts j := by
  cases available with
  | nil => cases hj
  | cons h t =>
    unfold APIKeyPool.minUsageOf
    rcases List.mem_cons.mp hj with hj | hj
    · subst hj; exact foldl_min_le_init _ _ _
    · exact foldl_min_le_mem _ _ _ _ hj

lemma minUsageOf_attained {p : APIKeyPool} {available : List String}
    (h : available ≠ []) :
    ∃ j ∈ available, p.usageCounts j = p.minUsageOf available := by
  cases available with
  | nil => exact absurd rfl h
  | cons k t =>
    unfold APIKeyPool.minUsageOf
    rcases foldl_min_attained p.usageCounts t (p.usageCounts k) with heq | ⟨j, hj, hje⟩
    · exact ⟨k, List.mem_cons_self _ _, heq.symm⟩
    · exact ⟨j, List.mem_cons_of_mem _ hj, hje.symm⟩

lemma mem_candidatesOf_of_min {p : APIKeyPool} {available : List String} {j : String}
    (hj : j ∈ available) (hu : p.usageCounts j = p.minUsageOf available) :
    j ∈ p.candidatesOf available := by
  unfold APIKeyPool.candidatesOf
  refine List.mem_filter.mpr ⟨hj, ?_⟩
  simp only [decide_eq_true_eq]
  rw [hu]
  exact Nat.le_add_right _ _

lemma candidatesOf_ne_nil {p : APIKeyPool} {available : List String}
    (h : available ≠ []) : p.candidatesOf available ≠ [] := by
  obtain ⟨j, hj, hje⟩ := minUsageOf_attained (p := p) h
  have := mem_candidatesOf_of_min hj hje
  exact List.ne_nil_of_mem this

lemma selectKey_eq_candidate {p1 : APIKeyPool} {now : Nat} (choice : Nat)
    (h : p1.getAvailableKeys now ≠ []) :
    p1.selectKey now choice =
      (p1.candidatesOf (p1.getAvailableKeys now)).getD
        (choice % (p1.candidatesOf (p1.getAvailableKeys now)).length) "" := by
  unfold APIKeyPool.selectKey
  have hc : (p1.candidatesOf (p1.getAvailableKeys now)).isEmpty = false := by
    simp [List.isEmpty_iff, candidatesOf_ne_nil h]
  simp [hc]

lemma selectKey_mem_candidates {p1 : APIKeyPool} {now : Nat} (choice : Nat)
    (h : p1.getAvailableKeys now ≠ []) :
    p1.selectKey now choice ∈ p1.candidatesOf (p1.getAvailableKeys now) := by
  rw [selectKey_eq_candidate choice h]
  exact getD_mod_mem (candidatesOf_ne_nil h) choice

lemma selectKey_mem_available {p1 : APIKeyPool} {now : Nat} (choice : Nat)
    (h : p1.getAvailableKeys now ≠ []) :
    p1.selectKey now choice ∈ p1.getAvailableKeys now :=
  candidatesOf_subset _ _ (selectKey_mem_candidates choice h)

lemma acquiredKey_eq_some_iff {p : APIKeyPool} {now choice : Nat} {key : String} :
    p.acquiredKey now choice = some key ↔
      (p.cleanBlacklist now).getAvailableKeys now ≠ [] ∧
        (p.cleanBlacklist now).selectKey now choice = key := by
  unfold APIKeyPool.acquiredKey APIKeyPool.getRandomKey
  by_cases hemp : ((p.cleanBlacklist now).getAvailableKeys now).isEmpty
  · simp [hemp, List.isEmpty_iff.mp hemp]
  · have : (p.cleanBlacklist now).getAvailableKeys now ≠ [] := by
      simpa [List.isEmpty_iff] using hemp
    simp [hemp, this]

lemma acquiredKey_mem_available {p : APIKeyPool} {now choice : Nat} {key : String}
    (h : p.acquiredKey now choice = some key) :
    key ∈ (p.cleanBlacklist now).getAvailableKeys now := by
  obtain ⟨hne, hsel⟩ := acquiredKey_eq_some_iff.mp h
  rw [← hsel]
  exact selectKey_mem_available choice hne

lemma not_lt_blacklist_of_mem_available {p : APIKeyPool} {now : Nat} {k : String}
    (h : k ∈ p.getAvailableKeys now) {e : Nat} (hb : p.blacklist k = some e) :
    ¬ now < e := by
  unfold APIKeyPool.getAvailableKeys at h
  have hpred := (List.mem_filter.mp h).2
  rw [hb] at hpred
  intro hlt
  simp [hlt] at hpred

lemma cleanBlacklist_keeps_active {p : APIKeyPool} {now : Nat} {k : String} {e : Nat}
    (hb : p.blacklist k = some e) (h : now < e) :
    (p.cleanBlacklist now).blacklist k = some e := by
  unfold APIKeyPool.cleanBlacklist
  simp only [hb]
  rw [if_neg (by omega)]

/-! ### Claims C1, C6, C9 -/

/-- C1: `GetRandomKey` never returns a key whose blacklist-until timestamp is
strictly in the future (conjunct 1, stated on the original pool's blacklist
entry), and after `MarkFailed(key, retryAfter)` issued at time `now`, every
acquisition performed at a time `t < now + retryAfter` returns a key
different from `key` (or fails with exhaustion, i.e. returns `none`). -/
theorem getRandomKey_respects_blacklist :
    (∀ (p : APIKeyPool) (now choice : Nat) (key : String) (e : Nat),
      p.acquiredKey now choice = some key → p.blacklist key = some e → e ≤ now) ∧
    (∀ (p : APIKeyPool) (key : String) (now d t choice : Nat),
      t < now + d → (p.markFailed key now d).acquiredKey t choice ≠ some key) := by
  constructor
  · intro p now choice key e hacq hbl
    by_contra hgt
    have hlt : now < e := Nat.lt_of_not_le (fun hle => hgt hle)
    have hb' : (p.cleanBlacklist now).blacklist key = some e :=
      cleanBlacklist_keeps_active hbl hlt
    exact not_lt_blacklist_of_mem_available (acquiredKey_mem_available hacq) hb' hlt
  · intro p key now d t choice ht hacq
    have hb : (p.markFailed key now d).blacklist key = some (now + d) := by
      unfold APIKeyPool.markFailed
      simp
    have hb' : ((p.markFailed key now d).cleanBlacklist t).blacklist key =
        some (now + d) := cleanBlacklist_keeps_active hb ht
    exact not_lt_blacklist_of_mem_available (acquiredKey_mem_available hacq) hb' ht

/-- Witness for C1 at a concrete pool: key `"a"` carries an already-expired
blacklist entry (until 3, acquired at time 7), and after `MarkFailed "a"`
at time 10 with cooldown 100, an acquisition at time 50 does not return
`"a"`. -/
theorem getRandomKey_respects_blacklist_witness :
    (let p : APIKeyPool :=
      { keys := ["a", "b"], usageCounts := fun _ => 0,
        lastUsedTime := fun _ => none,
        blacklist := fun k => if k = "a" then some 3 else none }
     p.acquiredKey 7 0 = some "a" ∧ p.blacklist "a" = some 3 ∧ (3 : Nat) ≤ 7) ∧
    (let q : APIKeyPool :=
      { keys := ["a", "b"], usageCounts := fun _ => 0,
        lastUsedTime := fun _ => none, blacklist := fun _ => none }
     (50 : Nat) < 10 + 100 ∧
       (q.markFailed "a" 10 100).acquiredKey 50 0 ≠ some "a") := by
  refine ⟨⟨by decide, by decide, by decide⟩, by decide, ?_⟩
  exact getRandomKey_respects_blacklist.2 _ "a" 10 100 50 0 (by decide)

/-- C9: every available key attaining the minimum usage count is a
candidate, hence the candidate set computed by `GetRandomKey` is non-empty
whenever the available set is, making the fallback reset of `candidates`
to the full available set unreachable. -/
theorem getRandomKey_candidates_nonempty :
    (∀ (p : APIKeyPool) (available : List String) (j : String),
      j ∈ available → p.usageCounts j = p.minUsageOf available →
        j ∈ p.candidatesOf available) ∧
    (∀ (p : APIKeyPool) (available : List String),
      available ≠ [] → p.candidatesOf available ≠ []) := by
  exact ⟨fun _ _ _ hj hu => mem_candidatesOf_of_min hj hu,
    fun _ _ h => candidatesOf_ne_nil h⟩

/-- Witness for C9 at a concrete pool with skewed usage counts: the
least-used key `"b"` is a candidate and the candidate set is non-empty. -/
theorem getRandomKey_candidates_nonempty_witness :
    (let p : APIKeyPool :=
      { keys := ["a", "b"], usageCounts := fun k => if k = "a" then 9 else 0,
        lastUsedTime := fun _ => none, blacklist := fun _ => none }
     "b" ∈ p.candidatesOf ["a", "b"] ∧ p.candidatesOf ["a", "b"] ≠ []) := by
  constructor
  · exact getRandomKey_candidates_nonempty.1 _ ["a", "b"] "b" (by decide) (by decide)
  · exact getRandomKey_candidates_nonempty.2 _ ["a", "b"] (by decide)

/-- C6: on a non-empty available set, `GetRandomKey` succeeds and returns
exactly the `(choice % |candidates|)`-th element of the candidate list —
the available keys whose usage count is at most
`minUsage + |available| / 2`, where `minUsage` is the minimum usage count
over the available keys (lower bound and attainment both proved) — and the
post-state increments the returned key's usage counter and records its
last-used time `now`. -/
theorem getRandomKey_selects_least_used (p : APIKeyPool) (now choice : Nat)
    (h : (p.cleanBlacklist now).getAvailableKeys now ≠ []) :
    let p1 := p.cleanBlacklist now
    let available := p1.getAvailableKeys now
    let candidates := p1.candidatesOf available
    ∃ key,
      key = candidates.getD (choice % candidates.length) "" ∧
      p.acquiredKey now choice = some key ∧
      key ∈ candidates ∧
      (∀ j ∈ available, p1.minUsageOf available ≤ p1.usageCounts j) ∧
      (∃ j ∈ available, p1.usageCounts j = p1.minUsageOf available) ∧
      p.usageAfter now choice key = some (p1.usageCounts key + 1) ∧
      p.lastUsedAfter now choice key = some (some now) := by
  intro p1 available candidates
  refine ⟨p1.selectKey now choice, selectKey_eq_candidate choice h, ?_, ?_, ?_, ?_, ?_, ?_⟩
  · exact acquiredKey_eq_some_iff.mpr ⟨h, rfl⟩
  · exact selectKey_mem_candidates choice h
  · exact fun j hj => minUsageOf_le hj
  · exact minUsageOf_attained h
  · unfold APIKeyPool.usageAfter APIKeyPool.poolAfter APIKeyPool.getRandomKey
    have hemp : (p1.getAvailableKeys now).isEmpty = false := by
      simp [List.isEmpty_iff, h]
    simp [hemp]
  · unfold APIKeyPool.lastUsedAfter APIKeyPool.poolAfter APIKeyPool.getRandomKey
    have hemp : (p1.getAvailableKeys now).isEmpty = false := by
      simp [List.isEmpty_iff, h]
    simp [hemp]

/-- Witness for C6 at a concrete pool: two keys, `"a"` heavily used, so the
selection at time 7 picks among the least-used candidates. -/
theorem getRandomKey_selects_least_used_witness :
    (let p : APIKeyPool :=
      { keys := ["a", "b"], usageCounts := fun k => if k = "a" then 9 else 0,
        lastUsedTime := fun _ => none, blacklist := fun _ => none }
     (p.cleanBlacklist 7).getAvailableKeys 7 ≠ [] ∧
       ∃ key,
         key = ((p.cleanBlacklist 7).candidatesOf
            ((p.cleanBlacklist 7).getAvailableKeys 7)).getD
            (0 % ((p.cleanBlacklist 7).candidatesOf
              ((p.cleanBlacklist 7).getAvailableKeys 7)).length) "" ∧
         p.acquiredKey 7 0 = some key ∧
         key ∈ (p.cleanBlacklist 7).candidatesOf
            ((p.cleanBlacklist 7).getAvailableKeys 7) ∧
         (∀ j ∈ (p.cleanBlacklist 7).getAvailableKeys 7,
           (p.cleanBlacklist 7).minUsageOf ((p.cleanBlacklist 7).getAvailableKeys 7) ≤
             (p.cleanBlacklist 7).usageCounts j) ∧
         (∃ j ∈ (p.cleanBlacklist 7).getAvailableKeys 7,
           (p.cleanBlacklist 7).usageCounts j =
             (p.cleanBlacklist 7).minUsageOf ((p.cleanBlacklist 7).getAvailableKeys 7)) ∧
         p.usageAfter 7 0 key = some ((p.cleanBlacklist 7).usageCounts key + 1) ∧
         p.lastUsedAfter 7 0 key = some (some 7)) := by
  exact ⟨by decide, getRandomKey_selects_least_used _ 7 0 (by decide)⟩

/-! ### TextProcessor lemmas -/

lemma fieldsAux_noWS :
    ∀ (l cur : List Char), (∀ ch ∈ cur, ch.isWhitespace = false) →
      ∀ w ∈ fieldsAux cur l, ∀ ch ∈ w, ch.isWhitespace = false := by
  intro l
  induction l with
  | nil =>
    intro cur hcur w hw
    by_cases h : cur = []
    · simp [fieldsAux, h] at hw
    · simp [fieldsAux, h] at hw
      subst hw; exact hcur
  | cons c rest ih =>
    intro cur hcur w hw
    by_cases hc : c.isWhitespace = true
    · by_cases h0 : cur = []
      · simp [fieldsAux, hc, h0] at hw
        exact ih [] (by simp) w hw
      · simp [fieldsAux, hc, h0] at hw
        rcases hw with hw | hw
        · subst hw; exact hcur
        · exact ih [] (by simp) w hw
    · simp [fieldsAux, hc] at hw
      refine ih (cur ++ [c]) ?_ w hw
      intro ch hch
      rcases List.mem_append.mp hch with h | h
      · exact hcur ch h
      · simp at h; subst h
        simpa using hc

lemma splitWordsLoop_bound (limit : Nat) :
    ∀ (words : List (List Char)) (current : List Char),
      (∀ w ∈ words, ∀ ch ∈ w, ch.isWhitespace = false) →
      (current.length ≤ limit ∨ ∀ ch ∈ current, ch.isWhitespace = false) →
      ∀ c ∈ splitWordsLoop limit current words,
        c.length ≤ limit ∨ ∀ ch ∈ c, ch.isWhitespace = false := by
  intro words
  induction words with
  | nil =>
    intro current _ hcur c hc
    by_cases h0 : current = []
    · simp [splitWordsLoop, h0] at hc
    · simp [splitWordsLoop, h0] at hc
      subst hc; exact hcur
  | cons w rest ih =>
    intro current hws hcur c hc
    have hw : ∀ ch ∈ w, ch.isWhitespace = false := hws w (List.mem_cons_self _ _)
    have hrest : ∀ w' ∈ rest, ∀ ch ∈ w', ch.isWhitespace = false :=
      fun w' h' => hws w' (List.mem_cons_of_mem _ h')
    simp only [splitWordsLoop] at hc
    by_cases hgt : current.length + w.length + 1 > limit
    · rw [if_pos hgt] at hc
      by_cases h0 : current = []
      · rw [if_pos h0] at hc
        exact ih w hrest (Or.inr hw) c hc
      · rw [if_neg h0] at hc
        rcases List.mem_cons.mp hc with rfl | hc
        · exact hcur
        · exact ih w hrest (Or.inr hw) c hc
    · rw [if_neg hgt] at hc
      refine ih _ hrest ?_ c hc
      by_cases h0 : current = []
      · rw [if_pos h0]; exact Or.inr hw
      · rw [if_neg h0]
        left
        have hle : current.length + w.length + 1 ≤ limit := Nat.le_of_not_lt hgt
        simp only [List.length_append, List.length_cons]
        omega

lemma splitLongText_bound (limit : Nat) (text : List Char) :
    ∀ c ∈ splitLongText limit text,
      c.length ≤ limit ∨ ∀ ch ∈ c, ch.isWhitespace = false := by
  intro c hc
  refine splitWordsLoop_bound limit (fields text) [] ?_ (Or.inl (by simp)) c hc
  intro w hw
  exact fieldsAux_noWS text [] (by simp) w hw

lemma packSentences_bound (limit : Nat) :
    ∀ (sentences : List (List Char)) (current : List Char),
      current.length ≤ limit →
      ∀ c ∈ packSentences limit current sentences,
        c.length ≤ limit ∨ ∀ ch ∈ c, ch.isWhitespace = false := by
  intro sentences
  induction sentences with
  | nil =>
    intro current hcur c hc
    by_cases h0 : current = []
    · simp [packSentences, h0] at hc
    · simp [packSentences, h0] at hc
      subst hc; exact Or.inl hcur
  | cons s rest ih =>
    intro current hcur c hc
    simp only [packSentences] at hc
    by_cases hle : current.length + s.length + (if current = [] then 0 else 1) ≤ limit
    · rw [if_pos hle] at hc
      refine ih _ ?_ c hc
      by_cases h0 : current = []
      · rw [if_pos h0]
        simp [h0] at hle
        omega
      · rw [if_neg h0]
        rw [if_neg h0] at hle
        simp only [List.length_append, List.length_cons]
        omega
    · rw [if_neg hle] at hc
      rcases List.mem_append.mp hc with hc | hc
      · by_cases h0 : current = []
        · simp [h0] at hc
        · rw [if_neg h0] at hc
          simp at hc
          subst hc; exact Or.inl hcur
      · by_cases hslong : s.length > limit
        · rw [if_pos hslong] at hc
          rcases List.mem_append.mp hc with hc | hc
          · exact splitLongText_bound limit s c hc
          · exact ih [] (by simp) c hc
        · rw [if_neg hslong] at hc
          exact ih s (Nat.le_of_not_lt hslong) c hc

/-! ### Claims C4, C5 -/

/-- Counterexample to C4 as stated: on the empty and on a whitespace-only
script `SplitForAudio` returns the empty sequence, not one (empty) chunk
equal to the trimmed input. -/
theorem splitForAudio_empty_returns_no_chunk :
    splitForAudio 100 [] = [] ∧
    splitForAudio 100 [' '] = [] ∧
    splitForAudio 100 [' '] ≠ [trimSpace [' ']] := by
  refine ⟨by decide, by decide, by decide⟩

/-- C4 (amended): for every script whose trimmed form is non-empty and fits
the chunk limit, `SplitForAudio` returns exactly one chunk equal to the
trimmed input; the empty / whitespace-only script instead yields the empty
sequence. -/
theorem splitForAudio_single_chunk (limit : Nat) (text : List Char)
    (h1 : trimSpace text ≠ []) (h2 : (trimSpace text).length ≤ limit) :
    splitForAudio limit text = [trimSpace text] := by
  simp only [splitForAudio]
  rw [if_neg h1, if_pos h2]

/-- Witness for amended C4: the script `"  hi "` with limit 5 yields the
single chunk `"hi"`. -/
theorem splitForAudio_single_chunk_witness :
    trimSpace "  hi ".toList ≠ [] ∧
    (trimSpace "  hi ".toList).length ≤ 5 ∧
    splitForAudio 5 "  hi ".toList = [trimSpace "  hi ".toList] := by
  refine ⟨by decide, by decide, splitForAudio_single_chunk 5 _ (by decide) (by decide)⟩

/-- C5: for every script and positive chunk limit, every chunk produced by
`SplitForAudio` either fits the limit or is a single whitespace-free atomic
token (which may exceed the limit). -/
theorem splitForAudio_respects_limit (limit : Nat) (text : List Char)
    (_hpos : 0 < limit) :
    ∀ c ∈ splitForAudio limit text,
      c.length ≤ limit ∨ ∀ ch ∈ c, ch.isWhitespace = false := by
  intro c hc
  simp only [splitForAudio] at hc
  by_cases h1 : trimSpace text = []
  · simp [h1] at hc
  · rw [if_neg h1] at hc
    by_cases h2 : (trimSpace text).length ≤ limit
    · rw [if_pos h2] at hc
      simp at hc
      subst hc; exact Or.inl h2
    · rw [if_neg h2] at hc
      exact packSentences_bound limit _ [] (by simp) c hc

/-- Witness for C5: with limit 5, `"hello world."` splits into `"hello"`
and the over-long atomic token `"world."`, and the theorem certifies the
chunk `"world."`. -/
theorem splitForAudio_respects_limit_witness :
    (0 : Nat) < 5 ∧
    "world.".toList ∈ splitForAudio 5 "hello world.".toList ∧
    ("world.".toList.length ≤ 5 ∨
      ∀ ch ∈ "world.".toList, ch.isWhitespace = false) := by
  refine ⟨by decide, by decide, ?_⟩
  exact splitForAudio_respects_limit 5 "hello world.".toList (by decide)
    "world.".toList (by decide)

/-! ## GenerationWorkerPool batches (services/audio_service.go,
services/composer_service.go)

`GenerateAudioChunks` / `GenerateVideos` launch one unit per input, each
unit writing either `audioPaths[i]` or `errors[i]`, then scan `errors` in
index order and return the first error (wrapped with the unit index) with a
`nil` output.  Each unit itself is the three-attempt retry loop of
`generateSingleAudio` / `generateSingleVideo`; the external call of attempt
`a` is modelled by a function `attempt : Nat → Except String String`
(producing the artifact path or the provider error).

The join, however, is broken: the `done` channel is closed by the goroutine
whose index is `len-1` when that single unit finishes
(audio_service.go:77-79, composer_service.go:181-183), so `<-done` does not
wait for the other units.  The batch functions therefore take the result
slots as they stand when the scan runs: `slots[i] = none` models a unit
whose goroutine has not yet written `audioPaths[i]`/`errors[i]` (its slots
still hold the zero values `""` and `nil`), and the only synchronization
guarantee is that the last slot is written.  (part_004's audio revision
replaces the channel with a `sync.WaitGroup` — and also changes the
exhaustion message — but the cited code and the sole `GenerateVideos` both
have the early close.) -/

/-- The retry loop shared by `generateSingleAudio` and
`generateSingleVideo` (`maxRetries = 3`): run the listed attempts in order,
return the first success, and after exhausting them wrap the last error. -/
def retryThree (attempt : Nat → Except String String) :
    List Nat → String → Except String String
  | [], lastErr => .error ("failed after 3 retries: " ++ lastErr)
  | a :: rest, _ =>
    match attempt a with
    | .ok path => .ok path
    | .error e => retryThree attempt rest e

/-- Go `generateSingleAudio`: attempts 0, 1, 2. -/
def generateSingleAudio (attempt : Nat → Except String String) :
    Except String String :=
  retryThree attempt [0, 1, 2] ""

/-- Go `generateSingleVideo`: attempts 0, 1, 2. -/
def generateSingleVideo (attempt : Nat → Except String String) :
    Except String String :=
  retryThree attempt [0, 1, 2] ""

/-- The `for i, err := range errors` scan: first index (offset by `i`)
holding an error. -/
def firstErrorAux : Nat → List (Option String) → Option (Nat × String)
  | _, [] => none
  | i, none :: rest => firstErrorAux (i + 1) rest
  | i, some e :: _ => some (i, e)

/-- Go `GenerateAudioChunks`, joined at the moment `<-done` unblocks: for
each unit, `slots[i] = some outcome` when the unit's goroutine has written
its result slots by then, and `none` when it is still running (its
`audioPaths[i]`/`errors[i]` entries still hold the zero values `""` and
`nil`).  The scan returns `nil` plus the first recorded unit error (citing
its index), or the path list as it stands. -/
def generateAudioChunks (slots : List (Option (Except String String))) :
    Except String (List String) :=
  let audioPaths := slots.map fun s =>
    match s with | some (.ok p) => p | _ => ""
  let errors := slots.map fun s =>
    match s with | some (.error e) => some e | _ => none
  match firstErrorAux 0 errors with
  | some (i, e) => .error ("failed to generate audio chunk " ++ toString i ++ ": " ++ e)
  | none => .ok audioPaths

/-- Go `GenerateVideos`: guard the prompts/durations length mismatch, then
the same join over the result slots with the video error message. -/
def generateVideos (slots : List (Option (Except String String)))
    (durations : List ℚ) : Except String (List String) :=
  if slots.length ≠ durations.length then
    .error "prompts and durations length mismatch"
  else
    let videoPaths := slots.map fun s =>
      match s with | some (.ok p) => p | _ => ""
    let errors := slots.map fun s =>
      match s with | some (.error e) => some e | _ => none
    match firstErrorAux 0 errors with
    | some (i, e) => .error ("failed to generate video segment " ++ toString i ++ ": " ++ e)
    | none => .ok videoPaths

/-! ### Claim C3 -/

/-- C3 (the code violates the claim): take two audio units where unit 0's
provider calls always fail — so, per the retry loop (first conjunct), it
eventually exhausts its three attempts with the claimed error — while the
last-index unit 1 succeeds quickly.  `close(done)` fires as soon as unit 1
finishes, before unit 0 (still sleeping between attempts) writes its error
slot, so the scan sees `slots = [none, some (ok path)]` and the batch call
returns a partial path list with an empty entry and **no** error — not the
claimed `nil` plus an error citing unit 0.  `GenerateVideos` has the
identical early close. -/
theorem generateBatch_partial_success_bug :
    generateSingleAudio (fun _ => Except.error "rate limited") =
      Except.error "failed after 3 retries: rate limited" ∧
    generateAudioChunks [none, some (Except.ok "chunk_001.mp3")] =
      Except.ok ["", "chunk_001.mp3"] ∧
    generateVideos [none, some (Except.ok "segment_001.mp4")] [5, 6] =
      Except.ok ["", "segment_001.mp4"] := by
  exact ⟨rfl, rfl, rfl⟩

/-! ## MergeVideosWithTransition (utils/ffmpeg.go)

The filter-complex built for the multi-clip path is embedded as structured
filter steps instead of the formatted string: one normalization step per
input, then one `xfade` step per adjacent pair carrying its transition
duration and start offset.  Clip durations (float64 seconds from ffprobe)
are carried over `ℚ`. -/

/-- One entry of the filter complex. -/
inductive VFilterStep where
  | norm (inputIdx : Nat) (resolution : String) (fps : Nat)
  | xfade (transition offset : ℚ)
deriving DecidableEq, Repr

/-- The `xfade` loop: `offset += durations[i-1] - transitionDuration` then
emit the pair's fade step; driven by the first `n-1` durations. -/
def xfadeChain : List ℚ → ℚ → ℚ → List VFilterStep
  | [], _, _ => []
  | d :: ds, t, off =>
    let off1 := off + d - t
    .xfade t off1 :: xfadeChain ds t off1

/-- The filter complex of the multi-clip path: normalize every input
(scale, setsar, fps, pixel format), then chain the fade transitions with
accumulated offsets starting from 0. -/
def mergeVideosFilters (durations : List ℚ) (t : ℚ) (res : String) (fps : Nat) :
    List VFilterStep :=
  ((List.range durations.length).map fun i => VFilterStep.norm i res fps) ++
    xfadeChain durations.dropLast t 0

/-- Result of `MergeVideosWithTransition`: error on no input, plain
re-encode for one input, filter-complex merge otherwise. -/
inductive MergeVideosResult where
  | noInput
  | single (fps : Nat) (resolution : String)
  | multi (filters : List VFilterStep)
deriving DecidableEq, Repr

/-- Go `MergeVideosWithTransition`, keyed by the probed input durations. -/
def MergeVideosWithTransition (durations : List ℚ) (t : ℚ) (fps : Nat)
    (res : String) : MergeVideosResult :=
  if durations.length = 0 then .noInput
  else if durations.length = 1 then .single fps res
  else .multi (mergeVideosFilters durations t res fps)

/-! ### Transition-merge lemmas -/

lemma xfadeChain_get :
    ∀ (ds : List ℚ) (t off : ℚ) (k : Nat), k < ds.length →
      (xfadeChain ds t off)[k]? =
        some (.xfade t (off + (ds.take (k + 1)).sum - (k + 1) * t)) := by
  intro ds
  induction ds with
  | nil => intro t off k hk; simp at hk
  | cons d rest ih =>
    intro t off k hk
    cases k with
    | zero =>
      simp [xfadeChain]
    | succ k =>
      simp only [xfadeChain, List.getElem?_cons_succ]
      rw [ih t (off + d - t) k (by simpa using hk)]
      congr 2
      simp [List.sum_cons]
      ring

lemma xfadeChain_length (t : ℚ) :
    ∀ (ds : List ℚ) (off : ℚ), (xfadeChain ds t off).length = ds.length := by
  intro ds
  induction ds with
  | nil => intro off; rfl
  | cons d rest ih => intro off; simp [xfadeChain, ih]

/-! ### Claim C7 -/

/-- C7: for two or more clips, `MergeVideosWithTransition` takes the
filter-complex path whose first `n` steps normalize every input to the
common resolution, frame rate, pixel format and aspect ratio, followed by
exactly `n - 1` fade steps, the `k`-th (0-based) of which starts at offset
`(sum of the first k+1 durations) - (k+1) * transitionSeconds` — the
closed form of the recurrence
`offset_i = offset_(i-1) + duration_(i-1) - transitionSeconds`. -/
theorem mergeVideosWithTransition_offsets (durations : List ℚ) (t : ℚ)
    (fps : Nat) (res : String) (h : 2 ≤ durations.length) :
    ∃ fs, MergeVideosWithTransition durations t fps res = .multi fs ∧
      fs.length = durations.length + (durations.length - 1) ∧
      (∀ i < durations.length, fs[i]? = some (.norm i res fps)) ∧
      (∀ k < durations.length - 1,
        fs[durations.length + k]? =
          some (.xfade t ((durations.take (k + 1)).sum - (k + 1) * t))) := by
  refine ⟨mergeVideosFilters durations t res fps, ?_, ?_, ?_, ?_⟩
  · unfold MergeVideosWithTransition
    rw [if_neg (by omega), if_neg (by omega)]
  · simp [mergeVideosFilters, xfadeChain_length]
  · intro i hi
    unfold mergeVideosFilters
    rw [List.getElem?_append]
    rw [if_pos (by simpa using hi)]
    simp [List.getElem?_range, hi]
  · intro k hk
    unfold mergeVideosFilters
    rw [List.getElem?_append]
    rw [if_neg (by simp)]
    simp only [List.length_map, List.length_range]
    have hsub : durations.length + k - durations.length = k := by omega
    rw [hsub]
    have hk' : k < durations.dropLast.length := by
      simp [List.length_dropLast]; omega
    rw [xfadeChain_get durations.dropLast t 0 k hk']
    have htake : durations.dropLast.take (k + 1) = durations.take (k + 1) := by
      rw [List.dropLast_eq_take, List.take_take]
      congr 1
      omega
    rw [htake]
    norm_num

/-- Witness for C7 at clip durations 4, 6, 5 with a 1-second transition:
offsets are 3 (= 4 − 1) and 8 (= 4 + 6 − 2). -/
theorem mergeVideosWithTransition_offsets_witness :
    (2 ≤ ([4, 6, 5] : List ℚ).length) ∧
    ∃ fs, MergeVideosWithTransition [4, 6, 5] 1 30 "1920x1080" = .multi fs ∧
      fs.length = ([4, 6, 5] : List ℚ).length + (([4, 6, 5] : List ℚ).length - 1) ∧
      (∀ i < ([4, 6, 5] : List ℚ).length, fs[i]? = some (.norm i "1920x1080" 30)) ∧
      (∀ k < ([4, 6, 5] : List ℚ).length - 1,
        fs[([4, 6, 5] : List ℚ).length + k]? =
          some (.xfade 1 ((([4, 6, 5] : List ℚ).take (k + 1)).sum - (k + 1) * 1))) := by
  exact ⟨by decide, mergeVideosWithTransition_offsets [4, 6, 5] 1 30 "1920x1080" (by decide)⟩

/-! ## StockVideoService.mergeVideosWithTransition
(services/stock_video_service.go, effective-duration variant)

The service-level merge is embedded by what it decides: the chosen path
(error / single-clip loop / multi-clip transition merge), the extended
duration list produced by the effective-duration top-up loop, and the
duration passed to the final `TrimVideo`.  `rand.Intn(len(inputPaths))` is
modelled by `pick step % durations.length`. -/

/-- Go's `int()` float-to-int conversion: truncation toward zero. -/
def goTrunc (q : ℚ) : ℤ := if q < 0 then ⌈q⌉ else ⌊q⌋

/-- Go `loopVideoToDuration`: concatenate `int(target/duration) + 1` copies of
the clip, then trim to exactly the target duration. -/
structure LoopResult where
  loops : ℤ
  trimTo : ℚ
deriving DecidableEq, Repr

/-- Go `loopVideoToDuration` on a clip of the given duration. -/
def loopVideoToDuration (clipDuration target : ℚ) : LoopResult :=
  { loops := goTrunc (target / clipDuration) + 1, trimTo := target }

/-- Outcome of the service merge. -/
inductive StockMergeResult where
  | noInput
  | singleLoop (lr : LoopResult)
  | multi (finalDurations : List ℚ) (trimTo : ℚ)
deriving DecidableEq, Repr

/-- The effective-duration top-up loop: while
`raw − (count−1)·t < safeTarget`, append a randomly chosen clip from the
downloaded set, breaking once more than 100 segments accumulate.  `fuel`
bounds the recursion; the segment cap fires first whenever
`fuel > 101 − durations.length`. -/
def extendLoop (base : List ℚ) (pick : Nat → Nat) (t safeTarget : ℚ) :
    Nat → List ℚ → ℚ → Nat → List ℚ
  | 0, acc, _, _ => acc
  | fuel + 1, acc, raw, step =>
    if raw - ((acc.length : ℚ) - 1) * t < safeTarget then
      let idx := pick step % base.length
      let d := base.getD idx 0
      let acc1 := acc ++ [d]
      if acc1.length > 100 then acc1
      else extendLoop base pick t safeTarget fuel acc1 (raw + d) (step + 1)
    else acc

/-- Go `StockVideoService.mergeVideosWithTransition`: error on no input; a
single clip is looped and trimmed to the target; otherwise top up the clip
list until the effective duration (raw minus transition overlap) clears
`target + 5`, merge with 1-second transitions, and trim to `target + 2`. -/
def stockMergeVideosWithTransition (durations : List ℚ) (target : ℚ)
    (pick : Nat → Nat) : StockMergeResult :=
  match durations with
  | [] => .noInput
  | [d] => .singleLoop (loopVideoToDuration d target)
  | _ :: _ :: _ =>
    let totalDuration := durations.sum
    let transitionDuration : ℚ := 1
    let safeTarget := target + 5
    let finalDurations :=
      extendLoop durations pick transitionDuration safeTarget 101
        durations totalDuration 0
    .multi finalDurations (target + 2)

/-- The duration handed to the final `TrimVideo` call (or, on the single
path, to the trim inside `loopVideoToDuration`). -/
def trimTargetOf : StockMergeResult → Option ℚ
  | .noInput => none
  | .singleLoop lr => some lr.trimTo
  | .multi _ tr => some tr

/-! ### Claim C2 -/

/-- Counterexample to C2 as stated: the single-clip path trims to exactly
the target (margin 0, not a strictly positive fixed margin), while the
multi-clip path trims to `target + 2`; no single strictly positive constant
margin describes both paths. -/
theorem stockMerge_margin_counterexample :
    trimTargetOf (stockMergeVideosWithTransition [4] 10 (fun _ => 0)) = some 10 ∧
    trimTargetOf (stockMergeVideosWithTransition [4, 4] 10 (fun _ => 0)) = some 12 ∧
    ¬ (10 : ℚ) < 10 := by
  refine ⟨rfl, ?_, by norm_num⟩
  have h : trimTargetOf (stockMergeVideosWithTransition [4, 4] 10 (fun _ => 0)) =
      some ((10 : ℚ) + 2) := rfl
  rw [h]
  norm_num

/-- C2 (amended): the multi-clip transition path always trims its output to
`target + 2` seconds (a fixed safety margin, deferring the exact cut to the
`-shortest` mux), while the single-clip path loops the clip and trims it to
exactly the target duration (no margin). -/
theorem stockMerge_trim_targets :
    (∀ (durations : List ℚ) (target : ℚ) (pick : Nat → Nat),
      2 ≤ durations.length →
      trimTargetOf (stockMergeVideosWithTransition durations target pick) =
        some (target + 2)) ∧
    (∀ (d target : ℚ) (pick : Nat → Nat),
      stockMergeVideosWithTransition [d] target pick =
        .singleLoop (loopVideoToDuration d target) ∧
      trimTargetOf (stockMergeVideosWithTransition [d] target pick) =
        some target) := by
  constructor
  · intro durations target pick h
    match durations, h with
    | a :: b :: rest, _ => rfl
  · intro d target pick
    exact ⟨rfl, rfl⟩

/-- Witness for amended C2: two 4-second clips with target 10 trim to 12. -/
theorem stockMerge_trim_targets_witness :
    2 ≤ ([4, 4] : List ℚ).length ∧
    trimTargetOf (stockMergeVideosWithTransition [4, 4] 10 (fun _ => 1)) =
      some (10 + 2) := by
  exact ⟨by decide, stockMerge_trim_targets.1 [4, 4] 10 (fun _ => 1) (by decide)⟩

/-! ## VideoHandler.processVideoGeneration (handlers/video_handler.go)

The per-job background pipeline is embedded as a cascade over the outcome
of each stage (external effects replaced by their `Except` results, bundled
in a `PipelineEnv`): any stage error marks the job failed with the wrapped
message and stops, except subtitle generation, whose error is only logged. -/

/-- The requested video source (`"stock"` vs. anything else = AI path). -/
inductive VideoSourceSel where
  | stock
  | ai
deriving DecidableEq, Repr

/-- Outcomes of the pipeline's effectful stages for one job. -/
structure PipelineEnv where
  tempDir : Except String String
  audioGen : Except String (List String)
  srt : Except String String
  audioMerge : Except String Unit
  videoSource : VideoSourceSel
  audioDuration : Except String ℚ
  stockPrep : Except String String
  prompts : Except String (List String)
  videoGen : Except String (List String)
  videoMerge : Except String Unit
  compose : Except String Unit
  hasIntro : Bool
  hasOutro : Bool
  introOutroConcat : Except String Unit

/-- Terminal job state: `failed` with the recorded error, or `completed`
(the flag records whether the final path is the intro/outro concatenation). -/
inductive JobOutcome where
  | failed (msg : String)
  | completed (withIntroOutro : Bool)
deriving DecidableEq, Repr

/-- Steps 8–9: compose the final video with audio, then concatenate
intro/outro when either exists. -/
def pipelineCompose (env : PipelineEnv) : JobOutcome :=
  match env.compose with
  | .error e => .failed ("composition failed: " ++ e)
  | .ok _ =>
    if env.hasIntro || env.hasOutro then
      match env.introOutroConcat with
      | .error e => .failed ("failed to add intro/outro: " ++ e)
      | .ok _ => .completed true
    else .completed false

/-- Steps 3–7, entered right after the subtitle step: merge audio, then the
stock or AI video branch, then compose. -/
def pipelineAfterSrt (env : PipelineEnv) : JobOutcome :=
  match env.audioMerge with
  | .error e => .failed ("audio merge failed: " ++ e)
  | .ok _ =>
    match env.videoSource with
    | .stock =>
      match env.audioDuration with
      | .error e => .failed ("failed to get audio duration: " ++ e)
      | .ok _ =>
        match env.stockPrep with
        | .error e => .failed ("stock video preparation failed: " ++ e)
        | .ok _ => pipelineCompose env
    | .ai =>
      match env.prompts with
      | .error e => .failed ("prompt generation failed: " ++ e)
      | .ok _ =>
        match env.videoGen with
        | .error e => .failed ("video generation failed: " ++ e)
        | .ok _ =>
          match env.videoMerge with
          | .error e => .failed ("video merge failed: " ++ e)
          | .ok _ => pipelineCompose env

/-- Go `processVideoGeneration`: temp dir, audio generation, then the subtitle
step — whose failure is logged and deliberately does not fail the job —
then the rest of the pipeline. -/
def processVideoGeneration (env : PipelineEnv) : JobOutcome :=
  match env.tempDir with
  | .error e => .failed ("failed to create temp dir: " ++ e)
  | .ok _ =>
    match env.audioGen with
    | .error e => .failed ("audio generation failed: " ++ e)
    | .ok _ =>
      match env.srt with
      | .error _ => pipelineAfterSrt env
      | .ok _ => pipelineAfterSrt env

/-! ### Claim C8 -/

/-- C8: a `GenerateSRT` failure never fails the job — the terminal outcome
with `srt` failing equals the outcome with `srt` succeeding, and once the
earlier stages succeeded the pipeline proceeds to the audio-merge stage
(`pipelineAfterSrt`), so the terminal status is determined solely by the
remaining stages. -/
theorem srt_failure_not_fatal :
    (∀ (env : PipelineEnv) (e path : String),
      processVideoGeneration { env with srt := .error e } =
        processVideoGeneration { env with srt := .ok path }) ∧
    (∀ (env : PipelineEnv) (td : String) (paths : List String) (e : String),
      env.tempDir = .ok td → env.audioGen = .ok paths → env.srt = .error e →
      processVideoGeneration env = pipelineAfterSrt env) := by
  constructor
  · intro env e path
    cases htd : env.tempDir with
    | error e1 => simp [processVideoGeneration, htd]
    | ok td =>
      cases hag : env.audioGen with
      | error e2 => simp [processVideoGeneration, htd, hag]
      | ok paths =>
        simp only [processVideoGeneration, htd, hag]
        have h1 : pipelineAfterSrt { env with srt := .error e } =
            pipelineAfterSrt { env with srt := .ok path } := by
          simp [pipelineAfterSrt, pipelineCompose]
        simpa using h1
  · intro env td paths e htd hag hsrt
    simp [processVideoGeneration, htd, hag, hsrt]

/-- Witness for C8 at a concrete environment in which every stage succeeds
except subtitle generation: the job still completes. -/
theorem srt_failure_not_fatal_witness :
    (let env : PipelineEnv :=
      { tempDir := .ok "tmp", audioGen := .ok ["a0"], srt := .error "srt boom",
        audioMerge := .ok (), videoSource := .stock, audioDuration := .ok 30,
        stockPrep := .ok "stock.mp4", prompts := .ok [], videoGen := .ok [],
        videoMerge := .ok (), compose := .ok (), hasIntro := false,
        hasOutro := false, introOutroConcat := .ok () }
     env.tempDir = .ok "tmp" ∧ env.audioGen = .ok ["a0"] ∧
       env.srt = .error "srt boom" ∧
       processVideoGeneration env = pipelineAfterSrt env ∧
       processVideoGeneration env = .completed false) := by
  refine ⟨rfl, rfl, rfl, ?_, rfl⟩
  exact srt_failure_not_fatal.2 _ "tmp" ["a0"] "srt boom" rfl rfl rfl

/-! ## VideoHandler.Generate (handlers/video_handler.go)

Job submission: validate the script and the speaking speed (0 defaults to
1.0), and only then create the job record, add it to the registry and spawn
the background task.  `startedTask` records the request the background task
is spawned with (`none` = no task spawned). -/

/-- The submission payload (`models.GenerateRequest`). -/
structure GenerateRequest where
  script : String
  voice : String
  speakingSpeed : ℚ
  videoStyle : String
  videoSource : String
  stockKeywords : String
deriving DecidableEq, Repr

/-- The job record created on acceptance (`models.JobStatus`). -/
structure JobStatus where
  jobID : String
  status : String
  progress : Nat
  currentStep : String
  createdAt : Nat
deriving DecidableEq, Repr

/-- The HTTP-level outcome of `Generate`. -/
inductive GenResponse where
  | badRequest (msg : String)
  | accepted (jobID : String)
deriving DecidableEq, Repr

/-- Result of a `Generate` call: response, registry contents afterwards, and
the request the background task was started with (if any). -/
structure GenerateResult where
  response : GenResponse
  jobs : List (String × JobStatus)
  startedTask : Option GenerateRequest
deriving DecidableEq, Repr

/-- The fresh job record. -/
def initialJob (jobID : String) (now : Nat) : JobStatus :=
  { jobID := jobID, status := "processing", progress := 0,
    currentStep := "Initializing", createdAt := now }

/-- Go `Generate`: reject an empty or over-long script; default a zero speaking
speed to 1.0; reject a speed outside [0.5, 2.0]; otherwise register the job
and start the background task with the (possibly defaulted) request. -/
def generate (maxTextLength : Nat) (req : GenerateRequest)
    (jobs : List (String × JobStatus)) (jobID : String) (now : Nat) :
    GenerateResult :=
  if req.script = "" then
    { response := .badRequest "Script is required", jobs := jobs,
      startedTask := none }
  else if req.script.length > maxTextLength then
    { response := .badRequest "Script too long", jobs := jobs,
      startedTask := none }
  else
    let req1 := if req.speakingSpeed = 0 then { req with speakingSpeed := 1 } else req
    if req1.speakingSpeed < 1/2 ∨ req1.speakingSpeed > 2 then
      { response := .badRequest "Speaking speed must be between 0.5 and 2.0",
        jobs := jobs, startedTask := none }
    else
      { response := .accepted jobID,
        jobs := (jobID, initialJob jobID now) :: jobs,
        startedTask := some req1 }

/-! ### Claim C10 -/

/-- C10: a submission with speaking speed 0 (and a valid script) is accepted
with the speed treated as 1.0, while any non-zero speed outside [0.5, 2.0]
is rejected with a validation error before a job exists: the registry is
unchanged and no background task is started. -/
theorem generate_speed_validation :
    (∀ (maxLen : Nat) (req : GenerateRequest) (jobs : List (String × JobStatus))
        (jobID : String) (now : Nat),
      req.script ≠ "" → req.script.length ≤ maxLen → req.speakingSpeed = 0 →
      generate maxLen req jobs jobID now =
        { response := .accepted jobID,
          jobs := (jobID, initialJob jobID now) :: jobs,
          startedTask := some { req with speakingSpeed := 1 } }) ∧
    (∀ (maxLen : Nat) (req : GenerateRequest) (jobs : List (String × JobStatus))
        (jobID : String) (now : Nat),
      req.speakingSpeed ≠ 0 →
      (req.speakingSpeed < 1/2 ∨ req.speakingSpeed > 2) →
      (∃ m, (generate maxLen req jobs jobID now).response = .badRequest m) ∧
      (generate maxLen req jobs jobID now).jobs = jobs ∧
      (generate maxLen req jobs jobID now).startedTask = none) := by
  constructor
  · intro maxLen req jobs jobID now h1 h2 h0
    simp only [generate]
    rw [if_neg h1, if_neg (by omega), if_pos h0]
    rw [if_neg (by norm_num)]
  · intro maxLen req jobs jobID now h0 hout
    by_cases h1 : req.script = ""
    · simp [generate, h1]
    · by_cases h2 : req.script.length > maxLen
      · simp [generate, h1, h2]
      · simp only [generate]
        rw [if_neg h1, if_neg h2, if_neg h0, if_pos hout]
        exact ⟨⟨_, rfl⟩, rfl, rfl⟩

/-- Witness for C10: speed 0 on a valid script is accepted as 1.0; speed 3
is rejected with the registry untouched and no task. -/
theorem generate_speed_validation_witness :
    (let reqZ : GenerateRequest :=
      { script := "hi", voice := "v", speakingSpeed := 0, videoStyle := "",
        videoSource := "stock", stockKeywords := "" }
     reqZ.script ≠ "" ∧ reqZ.script.length ≤ 100 ∧ reqZ.speakingSpeed = 0 ∧
       generate 100 reqZ [] "job1" 5 =
         { response := .accepted "job1",
           jobs := [("job1", initialJob "job1" 5)],
           startedTask := some { reqZ with speakingSpeed := 1 } }) ∧
    (let reqF : GenerateRequest :=
      { script := "hi", voice := "v", speakingSpeed := 3, videoStyle := "",
        videoSource := "stock", stockKeywords := "" }
     reqF.speakingSpeed ≠ 0 ∧
       (reqF.speakingSpeed < 1/2 ∨ reqF.speakingSpeed > 2) ∧
       (∃ m, (generate 100 reqF [] "job1" 5).response = .badRequest m) ∧
       (generate 100 reqF [] "job1" 5).jobs = [] ∧
       (generate 100 reqF [] "job1" 5).startedTask = none) := by
  constructor
  · refine ⟨by decide, by decide, rfl, ?_⟩
    exact generate_speed_validation.1 100 _ [] "job1" 5 (by decide) (by decide) rfl
  · refine ⟨by norm_num, Or.inr (by norm_num), ?_⟩
    exact generate_speed_validation.2 100 _ [] "job1" 5 (by norm_num)
      (Or.inr (by norm_num))

end Aituber
